import Mathlib

/-!
Shallow embedding of the calculator core of src/index.js: the tokenizer
(Calculator.read), the infix-to-postfix converter (Calculator.shuntingYard),
the postfix evaluator (Calculator.evaluateRPN), and the message-handler glue
that runs them in sequence over the shared mutable token buffer
Calculator.tokens.

Modelling choices:
- JavaScript strings are modelled as lists of characters (Tok = List Char).
- JavaScript numbers are modelled as rationals extended with the special
  values Infinity, -Infinity, NaN and undefined (the JSVal type).  All the
  arithmetic the source performs stays inside the rationals except for
  division by zero, Math.pow with negative exponent of zero, and Math.pow
  with a fractional exponent; the first two produce infinities, modelled
  faithfully, and the last produces an irrational float in general, which
  the rational model maps to NaN (no claim exercises it).
- The evaluator stack in the source holds raw token strings and computed
  numbers; every arithmetic case coerces its operands to numbers (the other
  four operators coerce implicitly, + via the explicit *1 in the source), so
  the stack is modelled as holding the parsed numeric values directly.
- Calculator.tokens is a persistent buffer on the Calculator object; it is
  modelled by threading the buffer through read and the glue (calcStep).
-/

namespace Calculator

/-- A token: the list of characters of the JavaScript token string. -/
abbrev Tok := List Char

/-- The character set of the operators variable in Calculator.read,
in source order: the string "+-*/()^". -/
def opChars : List Char := ['+', '-', '*', '/', '(', ')', '^']

/-- Calculator.isInteger applied to a single input character:
parseInt(c, 10) is not NaN exactly when c is a decimal digit. -/
def isInteger (c : Char) : Bool := c.isDigit

/-- JavaScript operators.indexOf(token) !== -1: the token string occurs as a
contiguous substring of "+-*/()^" (the empty string occurs at index 0). -/
def tokenInOps (t : Tok) : Bool := opChars.tails.any fun suf => t.isPrefixOf suf

/-- The push-if-nonempty pattern of Calculator.read:
if (token !== '') this.tokens.push(token). -/
def pushTok (token : Tok) (tokens : List Tok) : List Tok :=
  if token = [] then tokens else tokens ++ [token]

/-- The lookbehind of the unary-minus test in Calculator.read:
this.tokens.length === 0 || operators.indexOf(this.tokens[last]) !== -1. -/
def unaryOk (tokens : List Tok) : Bool :=
  tokens.isEmpty ||
    (match tokens.getLast? with
     | some t => tokenInOps t
     | none => false)

/-- Outcome of Calculator.read: either the final token buffer, or the thrown
ExpressionFormatException together with the buffer as left at the throw
(the source mutates this.tokens in place, so pushes made before the throw
survive it). -/
inductive ReadRes where
  | ok (tokens : List Tok)
  | fail (tokens : List Tok)
deriving DecidableEq

/-- The character loop of Calculator.read: scans the input characters with
the in-progress literal buffer token and the shared buffer this.tokens. -/
def readGo : List Char → Tok → List Tok → ReadRes
  | [], token, tokens => .ok (pushTok token tokens)
  | c :: cs, token, tokens =>
    if c = '.' then
      readGo cs (if token.contains '.' then token else token ++ ['.']) tokens
    else if isInteger c then
      if token = ['-'] ∧ unaryOk tokens = true then
        readGo cs (token ++ [c]) tokens
      else if tokenInOps token = false then
        readGo cs (token ++ [c]) tokens
      else
        readGo cs [c] (pushTok token tokens)
    else if opChars.contains c then
      readGo cs [c] (pushTok token tokens)
    else
      .fail tokens

/-- Calculator.read: starts with an empty literal buffer and the current
shared token buffer. -/
def read (s : String) (tokens : List Tok) : ReadRes := readGo s.toList [] tokens

/-- Numeric value of a digit character. -/
def digitVal (c : Char) : ℚ := ((c.toNat - 48 : ℕ) : ℚ)

/-- Value of a digit string read left to right. -/
def digitsVal (ds : List Char) : ℚ := ds.foldl (fun a c => 10 * a + digitVal c) 0

/-- JavaScript numeric conversion of a token string, restricted to the
character set the tokenizer can emit: an optional sign, integer digits, an
optional decimal point with fraction digits, at least one digit in total.
Returns none where Calculator.isNumber is false. -/
def jsNumberVal (t : Tok) : Option ℚ :=
  let sg : Bool × List Char :=
    match t with
    | [] => (false, [])
    | c :: r => if c = '-' then (true, r) else if c = '+' then (false, r) else (false, c :: r)
  let ip := sg.2.takeWhile Char.isDigit
  match sg.2.dropWhile Char.isDigit with
  | [] => if ip = [] then none else some (if sg.1 then -(digitsVal ip) else digitsVal ip)
  | '.' :: f =>
    let fp := f.takeWhile Char.isDigit
    if f.dropWhile Char.isDigit ≠ [] then none
    else if ip = [] ∧ fp = [] then none
    else
      let v := digitsVal ip + digitsVal fp / (10 : ℚ) ^ fp.length
      some (if sg.1 then -v else v)
  | _ => none

/-- Calculator.isNumber: !isNaN(parseFloat(input)) && isFinite(input). -/
def isNumber (t : Tok) : Bool := (jsNumberVal t).isSome

/-- The precedence object of Calculator.shuntingYard; none models the
JavaScript undefined obtained for keys outside the map. -/
def prec : Tok → Option ℕ
  | ['+'] => some 2
  | ['-'] => some 2
  | ['*'] => some 3
  | ['/'] => some 3
  | ['^'] => some 4
  | _ => none

/-- associativity[token] === 'left' for the five operator tokens. -/
def leftAssoc (t : Tok) : Bool :=
  t == ['+'] || t == ['-'] || t == ['*'] || t == ['/']

/-- associativity[token] === 'right' for the five operator tokens. -/
def rightAssoc (t : Tok) : Bool := t == ['^']

/-- The pop condition of the shunting-yard operator loop:
(left-associative and prec(op) <= prec(top)) or (right-associative and
prec(op) < prec(top)); comparisons against the undefined precedence of a
parenthesis are false, as they are in JavaScript. -/
def sycond (op top : Tok) : Bool :=
  match prec top, prec op with
  | some pTop, some pOp =>
    (leftAssoc op && decide (pOp ≤ pTop)) || (rightAssoc op && decide (pOp < pTop))
  | _, _ => false

/-- The single-character operator test /^[-+*\/\^]$/ of shuntingYard. -/
def isOpTok (t : Tok) : Bool :=
  t == ['+'] || t == ['-'] || t == ['*'] || t == ['/'] || t == ['^']

/-- The inner loop of the operator case of shuntingYard: walk the operator
stack from the top, moving each operator that satisfies sycond to the output
and stopping at the first that does not.  Returns (moved, remaining). -/
def popOps (op : Tok) : List Tok → List Tok × List Tok
  | [] => ([], [])
  | top :: rest =>
    if sycond op top then
      let pr := popOps op rest
      (top :: pr.1, pr.2)
    else
      ([], top :: rest)

/-- The token loop of Calculator.shuntingYard, with the output queue and the
operator stack (head = top of stack); the final case appends the drained
operator stack to the queue. -/
def syGo : List Tok → List Tok → List Tok → List Tok
  | [], queue, stack => queue ++ stack
  | t :: ts, queue, stack =>
    if isNumber t then
      syGo ts (queue ++ [t]) stack
    else if isOpTok t then
      syGo ts (queue ++ (popOps t stack).1) (t :: (popOps t stack).2)
    else if t = ['('] then
      syGo ts queue (['('] :: stack)
    else if t = [')'] then
      syGo ts (queue ++ stack.takeWhile (fun x => x != ['(']))
        ((stack.dropWhile (fun x => x != ['('])).drop 1)
    else
      syGo ts queue stack

/-- Calculator.shuntingYard: consumes the whole token buffer (the source
drains this.tokens with shift until empty) and returns the postfix queue. -/
def shuntingYard (tokens : List Tok) : List Tok := syGo tokens [] []

/-- A JavaScript numeric value as the evaluator sees it: a rational, an
infinity, NaN, or undefined (the result of popping an empty stack). -/
inductive JSVal where
  | num (q : ℚ)
  | inf (neg : Bool)
  | nan
  | undef
deriving DecidableEq

/-- Numeric coercion: undefined coerces to NaN, everything else is itself. -/
def toNumV : JSVal → JSVal
  | .undef => .nan
  | v => v

/-- JavaScript numeric addition (the + case uses first*1 + second*1, so no
string concatenation happens). -/
def jsAdd (a b : JSVal) : JSVal :=
  match toNumV a, toNumV b with
  | .num p, .num q => .num (p + q)
  | .num _, .inf s => .inf s
  | .inf s, .num _ => .inf s
  | .inf s, .inf t => if s = t then .inf s else .nan
  | _, _ => .nan

/-- JavaScript numeric subtraction. -/
def jsSub (a b : JSVal) : JSVal :=
  match toNumV a, toNumV b with
  | .num p, .num q => .num (p - q)
  | .num _, .inf s => .inf (!s)
  | .inf s, .num _ => .inf s
  | .inf s, .inf t => if s = t then .nan else .inf s
  | _, _ => .nan

/-- JavaScript numeric multiplication. -/
def jsMul (a b : JSVal) : JSVal :=
  match toNumV a, toNumV b with
  | .num p, .num q => .num (p * q)
  | .num p, .inf s => if p = 0 then .nan else .inf (Bool.xor s (decide (p < 0)))
  | .inf s, .num q => if q = 0 then .nan else .inf (Bool.xor s (decide (q < 0)))
  | .inf s, .inf t => .inf (Bool.xor s t)
  | _, _ => .nan

/-- JavaScript numeric division; a nonzero rational divided by zero gives a
signed infinity, 0/0 gives NaN. -/
def jsDiv (a b : JSVal) : JSVal :=
  match toNumV a, toNumV b with
  | .num p, .num q =>
    if q = 0 then (if p = 0 then .nan else .inf (decide (p < 0))) else .num (p / q)
  | .num _, .inf _ => .num 0
  | .inf s, .num q => .inf (Bool.xor s (decide (q < 0)))
  | .inf _, .inf _ => .nan
  | _, _ => .nan

/-- Math.pow following the ECMAScript specification on the rational model:
exponent 0 gives 1 for every base (including NaN); NaN operands otherwise
give NaN; integer exponents stay rational (negative exponents of zero give
Infinity); a fractional exponent is irrational in general and is mapped to
NaN by the rational model. -/
def jsPow (a b : JSVal) : JSVal :=
  match toNumV b with
  | .num q =>
    if q = 0 then .num 1
    else
      match toNumV a with
      | .num p =>
        if q.den = 1 then
          if 0 < q.num then .num (p ^ q.num.toNat)
          else if p = 0 then .inf false
          else .num (1 / p ^ (-q.num).toNat)
        else .nan
      | .inf s =>
        if 0 < q.num then .inf (s && decide (q.den = 1 ∧ q.num % 2 ≠ 0))
        else .num 0
      | _ => .nan
  | .inf s =>
    match toNumV a with
    | .num p =>
      if p = 1 ∨ p = -1 then .nan
      else if 1 < |p| then (if s then .num 0 else .inf false)
      else (if s then .inf false else .num 0)
    | .inf _ => if s then .num 0 else .inf false
    | _ => .nan
  | _ => .nan

/-- Dispatch of the evaluator switch: first OP second for the five operator
tokens (the default branch is never reached under the isOpTok guard). -/
def jsApply (op : Tok) (first second : JSVal) : JSVal :=
  if op = ['*'] then jsMul first second
  else if op = ['/'] then jsDiv first second
  else if op = ['-'] then jsSub first second
  else if op = ['+'] then jsAdd first second
  else if op = ['^'] then jsPow first second
  else .nan

/-- The token loop of Calculator.evaluateRPN with the value stack
(head = top).  A non-number token pops second then first (an empty pop gives
undefined), and the switch pushes the computed value for the five operators
and nothing for any other token; the final return stack.pop() yields the
top of the stack, or undefined when the stack is empty. -/
def evalGo : List Tok → List JSVal → JSVal
  | [], stack => stack.headD .undef
  | t :: ts, stack =>
    match jsNumberVal t with
    | some q => evalGo ts (.num q :: stack)
    | none =>
      let second := stack.headD .undef
      let first := (stack.drop 1).headD .undef
      let rest := stack.drop 2
      if t = ['*'] then evalGo ts (jsMul first second :: rest)
      else if t = ['/'] then evalGo ts (jsDiv first second :: rest)
      else if t = ['-'] then evalGo ts (jsSub first second :: rest)
      else if t = ['+'] then evalGo ts (jsAdd first second :: rest)
      else if t = ['^'] then evalGo ts (jsPow first second :: rest)
      else evalGo ts rest

/-- Calculator.evaluateRPN: evaluates a postfix token sequence with an
initially empty stack. -/
def evaluateRPN (input : List Tok) : JSVal := evalGo input []

/-- The one error kind of the source: the ExpressionFormatException thrown
by Calculator.read. -/
inductive CalcErr where
  | FormatError (msg : String)
deriving DecidableEq

/-- The message of the thrown ExpressionFormatException. -/
def formatMsg : String := "Your expression contains unidentified character(s)."

/-- One message handling step of the glue code: Calculator.read, then
Calculator.shuntingYard, then Calculator.evaluateRPN, with the thrown
exception caught.  Takes and returns the persistent Calculator.tokens
buffer: on a throw the buffer keeps the tokens pushed before the throw; on
success shuntingYard drains it to empty. -/
def calcStep (tokens : List Tok) (s : String) : Except CalcErr JSVal × List Tok :=
  match read s tokens with
  | .fail tk => (.error (.FormatError formatMsg), tk)
  | .ok tk => (.ok (evaluateRPN (shuntingYard tk)), [])

/-- The whole pipeline on one expression string, from the initial empty
token buffer (the evaluateExpression function of the specification). -/
def evaluateExpression (s : String) : Except CalcErr JSVal := (calcStep [] s).1

/-- A character the tokenizer accepts: a decimal point, a digit, or one of
the operator and parenthesis characters.  Any other character throws. -/
def validChar (c : Char) : Bool := (c == '.') || isInteger c || opChars.contains c

/-- Characters of a rendered numeric literal: optional minus sign, integer
digits, optional decimal point with fraction digits. -/
def litChars (neg : Bool) (ip fp : List Char) : List Char :=
  (if neg then ['-'] else []) ++ ip ++ (if fp = [] then [] else '.' :: fp)

/-- The rendered literal as a string. -/
def litStr (neg : Bool) (ip fp : List Char) : String := ⟨litChars neg ip fp⟩

/-- The numeric value of a rendered literal. -/
def litVal (neg : Bool) (ip fp : List Char) : ℚ :=
  let v := digitsVal ip + digitsVal fp / (10 : ℚ) ^ fp.length
  if neg then -v else v

lemma jsNumberVal_single {c : Char} {n : ℕ} (h1 : c.isDigit = true) (h2 : c.toNat - 48 = n) :
    jsNumberVal [c] = some (n : ℚ) := by
  have hc1 : ¬(c = '-') := by intro e; subst e; simp at h1
  have hc2 : ¬(c = '+') := by intro e; subst e; simp at h1
  simp [jsNumberVal, hc1, hc2, List.takeWhile_cons, List.dropWhile_cons, h1,
    digitsVal, digitVal, h2]

lemma jsNumberVal_negsingle {c : Char} {n : ℕ} (h1 : c.isDigit = true) (h2 : c.toNat - 48 = n) :
    jsNumberVal ['-', c] = some (-(n : ℚ)) := by
  simp [jsNumberVal, List.takeWhile_cons, List.dropWhile_cons, h1,
    digitsVal, digitVal, h2]

lemma eval_prec_a : evaluateExpression "2+3*4" = .ok (.num 14) := by
  have hr : read "2+3*4" [] = .ok [['2'], ['+'], ['3'], ['*'], ['4']] := by decide
  have hs : shuntingYard [['2'], ['+'], ['3'], ['*'], ['4']]
      = [['2'], ['3'], ['4'], ['*'], ['+']] := by decide
  have h2 : jsNumberVal ['2'] = some ((2 : ℕ) : ℚ) := jsNumberVal_single (by decide) (by decide)
  have h3 : jsNumberVal ['3'] = some ((3 : ℕ) : ℚ) := jsNumberVal_single (by decide) (by decide)
  have h4 : jsNumberVal ['4'] = some ((4 : ℕ) : ℚ) := jsNumberVal_single (by decide) (by decide)
  have hm : jsNumberVal ['*'] = none := rfl
  have hp : jsNumberVal ['+'] = none := rfl
  simp only [evaluateExpression, calcStep, hr, hs]
  simp +decide only [evaluateRPN, evalGo, h2, h3, h4, hm, hp, List.headD, List.drop]
  norm_num [jsAdd, jsMul, toNumV]

lemma eval_prec_b : evaluateExpression "(2+3)*4" = .ok (.num 20) := by
  have hr : read "(2+3)*4" [] = .ok [['('], ['2'], ['+'], ['3'], [')'], ['*'], ['4']] := by
    decide
  have hs : shuntingYard [['('], ['2'], ['+'], ['3'], [')'], ['*'], ['4']]
      = [['2'], ['3'], ['+'], ['4'], ['*']] := by decide
  have h2 : jsNumberVal ['2'] = some ((2 : ℕ) : ℚ) := jsNumberVal_single (by decide) (by decide)
  have h3 : jsNumberVal ['3'] = some ((3 : ℕ) : ℚ) := jsNumberVal_single (by decide) (by decide)
  have h4 : jsNumberVal ['4'] = some ((4 : ℕ) : ℚ) := jsNumberVal_single (by decide) (by decide)
  have hm : jsNumberVal ['*'] = none := rfl
  have hp : jsNumberVal ['+'] = none := rfl
  simp only [evaluateExpression, calcStep, hr, hs]
  simp +decide only [evaluateRPN, evalGo, h2, h3, h4, hm, hp, List.headD, List.drop]
  norm_num [jsAdd, jsMul, toNumV]

lemma eval_rassoc : evaluateExpression "2^3^2" = .ok (.num 512) := by
  have hr : read "2^3^2" [] = .ok [['2'], ['^'], ['3'], ['^'], ['2']] := by decide
  have hs : shuntingYard [['2'], ['^'], ['3'], ['^'], ['2']]
      = [['2'], ['3'], ['2'], ['^'], ['^']] := by decide
  have h2 : jsNumberVal ['2'] = some ((2 : ℕ) : ℚ) := jsNumberVal_single (by decide) (by decide)
  have h3 : jsNumberVal ['3'] = some ((3 : ℕ) : ℚ) := jsNumberVal_single (by decide) (by decide)
  have hc : jsNumberVal ['^'] = none := rfl
  simp only [evaluateExpression, calcStep, hr, hs]
  simp +decide only [evaluateRPN, evalGo, h2, h3, hc, List.headD, List.drop]
  norm_num [jsPow, toNumV]
  norm_num [show ((3 : ℤ) ^ Int.toNat 2).toNat = 9 by decide]

lemma eval_lassoc : evaluateExpression "8-3-2" = .ok (.num 3) := by
  have hr : read "8-3-2" [] = .ok [['8'], ['-'], ['3'], ['-'], ['2']] := by decide
  have hs : shuntingYard [['8'], ['-'], ['3'], ['-'], ['2']]
      = [['8'], ['3'], ['-'], ['2'], ['-']] := by decide
  have h8 : jsNumberVal ['8'] = some ((8 : ℕ) : ℚ) := jsNumberVal_single (by decide) (by decide)
  have h3 : jsNumberVal ['3'] = some ((3 : ℕ) : ℚ) := jsNumberVal_single (by decide) (by decide)
  have h2 : jsNumberVal ['2'] = some ((2 : ℕ) : ℚ) := jsNumberVal_single (by decide) (by decide)
  have hm : jsNumberVal ['-'] = none := rfl
  simp only [evaluateExpression, calcStep, hr, hs]
  simp +decide only [evaluateRPN, evalGo, h8, h3, h2, hm, List.headD, List.drop]
  norm_num [jsSub, toNumV]

lemma eval_negfirst : evaluateExpression "-5+3" = .ok (.num (-2)) := by
  have hr : read "-5+3" [] = .ok [['-', '5'], ['+'], ['3']] := by decide
  have hs : shuntingYard [['-', '5'], ['+'], ['3']] = [['-', '5'], ['3'], ['+']] := by decide
  have h5 : jsNumberVal ['-', '5'] = some (-((5 : ℕ) : ℚ)) :=
    jsNumberVal_negsingle (by decide) (by decide)
  have h3 : jsNumberVal ['3'] = some ((3 : ℕ) : ℚ) := jsNumberVal_single (by decide) (by decide)
  have hp : jsNumberVal ['+'] = none := rfl
  simp only [evaluateExpression, calcStep, hr, hs]
  simp +decide only [evaluateRPN, evalGo, h5, h3, hp, List.headD, List.drop]
  norm_num [jsAdd, toNumV]

lemma eval_doubleminus : evaluateExpression "5--3" = .ok (.num 8) := by
  have hr : read "5--3" [] = .ok [['5'], ['-'], ['-', '3']] := by decide
  have hs : shuntingYard [['5'], ['-'], ['-', '3']] = [['5'], ['-', '3'], ['-']] := by decide
  have h5 : jsNumberVal ['5'] = some ((5 : ℕ) : ℚ) := jsNumberVal_single (by decide) (by decide)
  have h3 : jsNumberVal ['-', '3'] = some (-((3 : ℕ) : ℚ)) :=
    jsNumberVal_negsingle (by decide) (by decide)
  have hm : jsNumberVal ['-'] = none := rfl
  simp only [evaluateExpression, calcStep, hr, hs]
  simp +decide only [evaluateRPN, evalGo, h5, h3, hm, List.headD, List.drop]
  norm_num [jsSub, toNumV]

lemma eval_parenminus : evaluateExpression "(2+3)-4" = .ok (.num (-4)) := by
  have hr : read "(2+3)-4" [] = .ok [['('], ['2'], ['+'], ['3'], [')'], ['-', '4']] := by
    decide
  have hs : shuntingYard [['('], ['2'], ['+'], ['3'], [')'], ['-', '4']]
      = [['2'], ['3'], ['+'], ['-', '4']] := by decide
  have h2 : jsNumberVal ['2'] = some ((2 : ℕ) : ℚ) := jsNumberVal_single (by decide) (by decide)
  have h3 : jsNumberVal ['3'] = some ((3 : ℕ) : ℚ) := jsNumberVal_single (by decide) (by decide)
  have h4 : jsNumberVal ['-', '4'] = some (-((4 : ℕ) : ℚ)) :=
    jsNumberVal_negsingle (by decide) (by decide)
  have hp : jsNumberVal ['+'] = none := rfl
  simp only [evaluateExpression, calcStep, hr, hs]
  simp +decide only [evaluateRPN, evalGo, h2, h3, h4, hp, List.headD, List.drop]
  norm_num [jsAdd, toNumV]

lemma evalRPN_two_numbers : evaluateRPN [['2'], ['3']] = JSVal.num 3 := by
  have h2 : jsNumberVal ['2'] = some ((2 : ℕ) : ℚ) := jsNumberVal_single (by decide) (by decide)
  have h3 : jsNumberVal ['3'] = some ((3 : ℕ) : ℚ) := jsNumberVal_single (by decide) (by decide)
  simp +decide only [evaluateRPN, evalGo, h2, h3, List.headD]

lemma evalRPN_one_number : evaluateRPN [['2']] = JSVal.num 2 := by
  have h2 : jsNumberVal ['2'] = some ((2 : ℕ) : ℚ) := jsNumberVal_single (by decide) (by decide)
  simp +decide only [evaluateRPN, evalGo, h2, List.headD]

lemma isOpTok_cases {t : Tok} (h : isOpTok t = true) :
    t = ['+'] ∨ t = ['-'] ∨ t = ['*'] ∨ t = ['/'] ∨ t = ['^'] := by
  simpa [isOpTok, Bool.or_eq_true, beq_iff_eq, or_assoc] using h

lemma jsNumberVal_of_op {t : Tok} (h : isOpTok t = true) : jsNumberVal t = none := by
  rcases isOpTok_cases h with h1 | h1 | h1 | h1 | h1 <;> subst h1 <;> rfl

lemma isNumber_of_op {t : Tok} (h : isOpTok t = true) : isNumber t = false := by
  simp [isNumber, jsNumberVal_of_op h]

lemma popOps_eq (op : Tok) (st : List Tok) :
    popOps op st = (st.takeWhile (sycond op), st.dropWhile (sycond op)) := by
  induction st with
  | nil => rfl
  | cons top rest ih =>
    cases h : sycond op top <;>
      simp [popOps, ih, List.takeWhile_cons, List.dropWhile_cons, h]

lemma digit_not_op {c : Char} (h : c.isDigit = true) : c ∉ opChars := by
  intro e
  have : c = '+' ∨ c = '-' ∨ c = '*' ∨ c = '/' ∨ c = '(' ∨ c = ')' ∨ c = '^' := by
    simpa [opChars] using e
  rcases this with e1 | e1 | e1 | e1 | e1 | e1 | e1 <;> subst e1 <;> exact absurd h (by decide)

lemma tokenInOps_false_of_digit_mem {token : Tok} {x : Char} (hx : x ∈ token)
    (hxd : x.isDigit = true) : tokenInOps token = false := by
  cases ht : tokenInOps token
  · rfl
  · exfalso
    rw [tokenInOps, List.any_eq_true] at ht
    obtain ⟨suf, hsuf, hpre⟩ := ht
    have h1 : token <+: suf := List.isPrefixOf_iff_prefix.mp hpre
    have h2 : suf <:+ opChars := (List.mem_tails _ _).mp hsuf
    exact digit_not_op hxd (h2.subset (h1.subset hx))

lemma token_ne_minus_of_digit_mem {token : Tok} {x : Char} (hx : x ∈ token)
    (hxd : x.isDigit = true) : ¬(token = ['-']) := by
  intro e
  subst e
  simp at hx
  subst hx
  exact absurd hxd (by decide)

lemma contains_dot_false {token : Tok} (h : ∀ x ∈ token, x = '-' ∨ x.isDigit = true) :
    token.contains '.' = false := by
  cases hc : token.contains '.'
  · rfl
  · exfalso
    have hmem : '.' ∈ token := List.elem_iff.mp hc
    rcases h '.' hmem with e | e
    · exact absurd e (by decide)
    · exact absurd e (by decide)

lemma readGo_cons_valid {c : Char} (hcv : validChar c = true) (cs : List Char)
    (token : Tok) (tokens : List Tok) :
    ∃ token2 tokens2, readGo (c :: cs) token tokens = readGo cs token2 tokens2 := by
  by_cases h1 : c = '.'
  · refine ⟨if token.contains '.' then token else token ++ ['.'], tokens, ?_⟩
    simp only [readGo]
    rw [if_pos h1]
  · by_cases h2 : isInteger c = true
    · by_cases h3 : token = ['-'] ∧ unaryOk tokens = true
      · refine ⟨token ++ [c], tokens, ?_⟩
        simp only [readGo]
        rw [if_neg h1, if_pos h2, if_pos h3]
      · by_cases h4 : tokenInOps token = false
        · refine ⟨token ++ [c], tokens, ?_⟩
          simp only [readGo]
          rw [if_neg h1, if_pos h2, if_neg h3, if_pos h4]
        · refine ⟨[c], pushTok token tokens, ?_⟩
          simp only [readGo]
          rw [if_neg h1, if_pos h2, if_neg h3, if_neg h4]
    · have h3 : opChars.contains c = true := by simpa [validChar, h1, h2] using hcv
      refine ⟨[c], pushTok token tokens, ?_⟩
      simp only [readGo]
      rw [if_neg h1, if_neg h2, if_pos h3]

lemma readGo_ok_of_valid :
    ∀ (cs : List Char) (token : Tok) (tokens : List Tok),
      (∀ c ∈ cs, validChar c = true) → ∃ tk, readGo cs token tokens = .ok tk := by
  intro cs
  induction cs with
  | nil => exact fun token tokens _ => ⟨pushTok token tokens, rfl⟩
  | cons c cs ih =>
    intro token tokens h
    obtain ⟨t2, k2, heq⟩ := readGo_cons_valid (h c (by simp)) cs token tokens
    obtain ⟨tk, htk⟩ := ih t2 k2 (fun x hx => h x (by simp [hx]))
    exact ⟨tk, by rw [heq, htk]⟩

lemma readGo_fail_of_invalid :
    ∀ (cs : List Char) (token : Tok) (tokens : List Tok),
      (∃ c ∈ cs, validChar c = false) → ∃ tk, readGo cs token tokens = .fail tk := by
  intro cs
  induction cs with
  | nil => intro token tokens h; simp at h
  | cons c cs ih =>
    intro token tokens h
    by_cases hcv : validChar c = true
    · have hd : ∃ d ∈ cs, validChar d = false := by
        obtain ⟨d, hd, hdv⟩ := h
        rcases List.mem_cons.mp hd with rfl | hmem
        · simp [hdv] at hcv
        · exact ⟨d, hmem, hdv⟩
      obtain ⟨t2, k2, heq⟩ := readGo_cons_valid hcv cs token tokens
      obtain ⟨tk, htk⟩ := ih t2 k2 hd
      exact ⟨tk, by rw [heq, htk]⟩
    · have hb : validChar c = false := Bool.eq_false_iff.mpr hcv
      have hb2 : (¬(c = '.') ∧ isInteger c = false) ∧ c ∉ opChars := by
        simpa [validChar] using hb
      obtain ⟨⟨h1, h2⟩, h3⟩ := hb2
      refine ⟨tokens, ?_⟩
      simp only [readGo]
      rw [if_neg h1, if_neg (by simp [h2]), if_neg (fun e => h3 (List.elem_iff.mp e))]

/-- C1: the converter processes an operator token op by moving stack
operators top to the output queue while (op left-associative and
prec(op) ≤ prec(top)) or (op right-associative and prec(op) < prec(top)),
then pushing op; on concrete inputs, evaluateExpression gives 14 on 2+3*4,
20 on (2+3)*4 and 512 on 2^3^2. -/
theorem c1_shunting_operator_rule (op : Tok) (hop : isOpTok op = true)
    (ts queue stack : List Tok) :
    syGo (op :: ts) queue stack
      = syGo ts (queue ++ stack.takeWhile (sycond op)) (op :: stack.dropWhile (sycond op))
    ∧ evaluateExpression "2+3*4" = .ok (.num 14)
    ∧ evaluateExpression "(2+3)*4" = .ok (.num 20)
    ∧ evaluateExpression "2^3^2" = .ok (.num 512) := by
  refine ⟨?_, eval_prec_a, eval_prec_b, eval_rassoc⟩
  simp [syGo, isNumber_of_op hop, hop, popOps_eq]

theorem c1_witness :
    syGo [['+']] [] [['*']]
      = syGo [] ([] ++ [['*']].takeWhile (sycond ['+']))
          (['+'] :: [['*']].dropWhile (sycond ['+']))
    ∧ evaluateExpression "2+3*4" = .ok (.num 14)
    ∧ evaluateExpression "(2+3)*4" = .ok (.num 20)
    ∧ evaluateExpression "2^3^2" = .ok (.num 512) :=
  c1_shunting_operator_rule ['+'] (by decide) [] [] [['*']]

/-- C2: the code tokenizes a minus that immediately follows a closing
parenthesis as a unary negative-literal prefix, because the lookbehind
checks membership in the whole string "+-*/()^", which contains the
closing parenthesis; so (2+3)-4 tokenizes as ( 2 + 3 ) -4 and the whole
pipeline returns -4 instead of the 1 the claim implies. -/
theorem c2_paren_minus_bug :
    read "(2+3)-4" [] = .ok [['('], ['2'], ['+'], ['3'], [')'], ['-', '4']]
    ∧ evaluateExpression "(2+3)-4" = .ok (.num (-4)) :=
  ⟨by decide, eval_parenminus⟩

/-- C3: on an operator token the evaluator pops the right operand second
first and the left operand first next, and pushes first OP second (with ^
as exponentiation), so evaluateExpression gives 3 on 8-3-2. -/
theorem c3_operand_order (op : Tok) (hop : isOpTok op = true) (ts : List Tok)
    (second first : JSVal) (rest : List JSVal) :
    evalGo (op :: ts) (second :: first :: rest)
      = evalGo ts (jsApply op first second :: rest)
    ∧ evaluateExpression "8-3-2" = .ok (.num 3) := by
  refine ⟨?_, eval_lassoc⟩
  rcases isOpTok_cases hop with h1 | h1 | h1 | h1 | h1 <;> subst h1 <;> rfl

theorem c3_witness :
    evalGo [['-']] [.num 3, .num 8] = evalGo [] [jsApply ['-'] (.num 8) (.num 3)]
    ∧ evaluateExpression "8-3-2" = .ok (.num 3) :=
  c3_operand_order ['-'] (by decide) [] (.num 3) (.num 8) []

/-- C4 counterexample: reaching an operator with fewer than two stack
values does not surface any stack-underflow error; the evaluator computes
with undefined operands and returns NaN. -/
theorem c4_cex : evaluateRPN [['+']] = JSVal.nan := rfl

/-- C4 amended: when an operator is reached with fewer than two values on
the stack, the evaluator pops undefined in place of each missing operand
and pushes the value computed from them, silently propagating NaN (for
instance on the postfix sequence consisting of + alone) instead of
raising an error. -/
theorem c4_underflow_amended (op : Tok) (hop : isOpTok op = true)
    (ts : List Tok) (v : JSVal) :
    evalGo (op :: ts) [] = evalGo ts [jsApply op .undef .undef]
    ∧ evalGo (op :: ts) [v] = evalGo ts [jsApply op .undef v]
    ∧ evaluateRPN [['+']] = JSVal.nan := by
  refine ⟨?_, ?_, rfl⟩ <;>
    rcases isOpTok_cases hop with h1 | h1 | h1 | h1 | h1 <;> subst h1 <;> rfl

theorem c4_underflow_amended_witness :
    evalGo [['*']] [] = evalGo [] [jsApply ['*'] .undef .undef]
    ∧ evalGo [['*']] [.num 5] = evalGo [] [jsApply ['*'] .undef (.num 5)]
    ∧ evaluateRPN [['+']] = JSVal.nan :=
  c4_underflow_amended ['*'] (by decide) [] (.num 5)

/-- C5 counterexample: with two values left on the stack after all tokens
are consumed, the evaluator returns the top value 3 instead of surfacing a
malformed-expression error. -/
theorem c5_cex : evaluateRPN [['2'], ['3']] = JSVal.num 3 := evalRPN_two_numbers

/-- C5 amended: after all tokens are consumed the evaluator returns the
top of the stack whatever its size: the single value when exactly one
remains, undefined when none remains, and the top with the rest silently
discarded when several remain; no error is raised in any case. -/
theorem c5_final_stack_amended (stack : List JSVal) :
    evalGo [] stack = stack.headD JSVal.undef
    ∧ evaluateRPN [['2']] = JSVal.num 2
    ∧ evaluateRPN [] = JSVal.undef :=
  ⟨rfl, evalRPN_one_number, rfl⟩

theorem c5_final_stack_amended_witness :
    evalGo [] [JSVal.num 1] = [JSVal.num 1].headD JSVal.undef
    ∧ evaluateRPN [['2']] = JSVal.num 2
    ∧ evaluateRPN [] = JSVal.undef :=
  c5_final_stack_amended [JSVal.num 1]

/-- C6 counterexample: tokenizing 2+a throws, but the shared token buffer
is not unchanged on the error: it retains the partial token 2 pushed
before the unidentified character was reached. -/
theorem c6_cex : (calcStep [] "2+a").2 = [['2']] ∧ (calcStep [] "2+a").2 ≠ [] := by
  constructor
  · decide
  · decide

/-- C6 amended: an input containing a character outside the digit,
decimal-point and operator sets makes tokenization fail immediately with
the FormatError, aborting the whole pipeline with no token sequence
returned; however the tokens completed before the offending character
stay behind in the shared buffer (the state is changed on error). -/
theorem c6_format_error_amended (s : String) (st : List Tok)
    (h : ∃ c ∈ s.toList, validChar c = false) :
    (calcStep st s).1 = .error (.FormatError formatMsg)
    ∧ (calcStep [] "2+a").2 = [['2']] := by
  obtain ⟨tk, htk⟩ := readGo_fail_of_invalid s.toList [] st h
  exact ⟨by simp only [calcStep, read, htk], by decide⟩

theorem c6_format_error_amended_witness :
    (calcStep [] "2+a").1 = .error (.FormatError formatMsg)
    ∧ (calcStep [] "2+a").2 = [['2']] :=
  c6_format_error_amended "2+a" [] ⟨'a', by decide, by decide⟩

/-- C7 counterexample: hidden state is carried between calls: after the
failed evaluation of 2+a leaves the token 2 in the shared buffer, the
evaluation of -5+3 returns 0, while from a fresh buffer it returns -2. -/
theorem c7_cex :
    (calcStep ((calcStep [] "2+a").2) "-5+3").1 = Except.ok (JSVal.num 0)
    ∧ (calcStep [] "-5+3").1 = Except.ok (JSVal.num (-2)) := by
  constructor
  · have hst : (calcStep [] "2+a").2 = [['2']] := by decide
    rw [hst]
    have hr : read "-5+3" [['2']] = .ok [['2'], ['-'], ['5'], ['+'], ['3']] := by decide
    have hs : shuntingYard [['2'], ['-'], ['5'], ['+'], ['3']]
        = [['2'], ['5'], ['-'], ['3'], ['+']] := by decide
    have h2 : jsNumberVal ['2'] = some ((2 : ℕ) : ℚ) := jsNumberVal_single (by decide) (by decide)
    have h5 : jsNumberVal ['5'] = some ((5 : ℕ) : ℚ) := jsNumberVal_single (by decide) (by decide)
    have h3 : jsNumberVal ['3'] = some ((3 : ℕ) : ℚ) := jsNumberVal_single (by decide) (by decide)
    have hm : jsNumberVal ['-'] = none := rfl
    have hp : jsNumberVal ['+'] = none := rfl
    simp only [calcStep, hr, hs]
    simp +decide only [evaluateRPN, evalGo, h2, h5, h3, hm, hp, List.headD, List.drop]
    norm_num [jsAdd, jsSub, toNumV]
  · exact eval_negfirst

/-- C7 amended: starting from the initial empty token buffer, evaluating
the same expression twice in succession yields identical results (on
success the converter drains the shared buffer; on a tokenizer error the
same FormatError is thrown again); the buffer is nevertheless hidden
state carried across calls, as the counterexample shows. -/
theorem c7_twice_amended (s : String) :
    (calcStep [] s).1 = (calcStep ((calcStep [] s).2) s).1 := by
  by_cases hall : ∀ c ∈ s.toList, validChar c = true
  · obtain ⟨tk, htk⟩ := readGo_ok_of_valid s.toList [] [] hall
    simp only [calcStep, read, htk]
  · have hex : ∃ c ∈ s.toList, validChar c = false := by
      push_neg at hall
      obtain ⟨c, hc, hcv⟩ := hall
      exact ⟨c, hc, Bool.eq_false_iff.mpr hcv⟩
    obtain ⟨tk1, h1⟩ := readGo_fail_of_invalid s.toList [] [] hex
    obtain ⟨tk2, h2⟩ := readGo_fail_of_invalid s.toList [] tk1 hex
    simp only [calcStep, read, h1, h2]

theorem c7_twice_amended_witness :
    (calcStep [] "2+3*4").1 = (calcStep ((calcStep [] "2+3*4").2) "2+3*4").1 :=
  c7_twice_amended "2+3*4"

/-- C9 amended: on any input whose characters the tokenizer accepts (in
particular any unbalanced-parenthesis input), the pipeline never raises a
fault: the converter drains its stack permissively and evaluateExpression
returns normally, though the returned value may be the JavaScript
undefined or NaN rather than a number, and no EvalError kind exists. -/
theorem c9_no_fault_amended (s : String) (h : ∀ c ∈ s.toList, validChar c = true) :
    ∃ v, evaluateExpression s = Except.ok v := by
  obtain ⟨tk, htk⟩ := readGo_ok_of_valid s.toList [] [] h
  exact ⟨evaluateRPN (shuntingYard tk), by simp only [evaluateExpression, calcStep, read, htk]⟩

theorem c9_no_fault_amended_witness :
    ∃ v, evaluateExpression "(2+3" = Except.ok v :=
  c9_no_fault_amended "(2+3" (by decide)

/-- C9 counterexample: on the unbalanced input (2+3 the pipeline neither
returns a numeric result nor any EvalError; it returns the JavaScript
undefined value (while indeed never throwing). -/
theorem c9_cex : evaluateExpression "(2+3" = Except.ok JSVal.undef := rfl

lemma readGo_digits :
    ∀ (ds cs : List Char) (token : Tok) (tokens : List Tok) (x : Char),
      (∀ d ∈ ds, d.isDigit = true) → x ∈ token → x.isDigit = true →
      readGo (ds ++ cs) token tokens = readGo cs (token ++ ds) tokens := by
  intro ds
  induction ds with
  | nil => intro cs token tokens x _ _ _; simp
  | cons d ds ih =>
    intro cs token tokens x hds hx hxd
    have hd : d.isDigit = true := hds d (by simp)
    have h1 : ¬(d = '.') := by intro e; subst e; exact absurd hd (by decide)
    have h3 : ¬(token = ['-'] ∧ unaryOk tokens = true) := by
      rintro ⟨e, -⟩
      exact token_ne_minus_of_digit_mem hx hxd e
    have h4 : tokenInOps token = false := tokenInOps_false_of_digit_mem hx hxd
    have step : readGo ((d :: ds) ++ cs) token tokens
        = readGo (ds ++ cs) (token ++ [d]) tokens := by
      simp only [List.cons_append, readGo]
      rw [if_neg h1, if_pos (show isInteger d = true from hd), if_neg h3, if_pos h4]
      rfl
    rw [step, ih cs (token ++ [d]) tokens x (fun a ha => hds a (by simp [ha])) (by simp [hx]) hxd,
      List.append_assoc]
    rfl

lemma readGo_end {token : Tok} (h : ¬(token = [])) (tokens : List Tok) :
    readGo [] token tokens = .ok (tokens ++ [token]) := by
  simp [readGo, pushTok, h]

lemma readGo_digits_end (ds : List Char) (token : Tok) (tokens : List Tok) (x : Char)
    (hds : ∀ c ∈ ds, c.isDigit = true) (hx : x ∈ token) (hxd : x.isDigit = true) :
    readGo ds token tokens = .ok (tokens ++ [token ++ ds]) := by
  have h := readGo_digits ds [] token tokens x hds hx hxd
  rw [List.append_nil] at h
  rw [h]
  have htok : ¬(token = []) := by intro e; subst e; simp at hx
  have htne : ¬(token ++ ds = []) := fun e => htok (List.append_eq_nil.mp e).1
  exact readGo_end htne tokens

lemma readGo_start_digit {d : Char} (hd : d.isDigit = true) (cs : List Char)
    (tokens : List Tok) : readGo (d :: cs) [] tokens = readGo cs [d] tokens := by
  have h1 : ¬(d = '.') := by intro e; subst e; exact absurd hd (by decide)
  simp +decide [readGo, isInteger, pushTok, h1, hd]

lemma readGo_minus_start (cs : List Char) :
    readGo ('-' :: cs) [] [] = readGo cs ['-'] [] := by
  simp +decide [readGo, pushTok]

lemma readGo_unary_digit {d : Char} (hd : d.isDigit = true) (cs : List Char) :
    readGo (d :: cs) ['-'] [] = readGo cs ['-', d] [] := by
  have h1 : ¬(d = '.') := by intro e; subst e; exact absurd hd (by decide)
  simp +decide [readGo, isInteger, unaryOk, h1, hd]

lemma readGo_dot {token : Tok} (h : token.contains '.' = false) (cs : List Char)
    (tokens : List Tok) :
    readGo ('.' :: cs) token tokens = readGo cs (token ++ ['.']) tokens := by
  have hmem : ¬('.' ∈ token) := fun hm => by simp at h; exact h hm
  simp [readGo, hmem]

lemma read_lit (neg : Bool) (ip fp : List Char) (h1 : ip ≠ [])
    (h2 : ∀ c ∈ ip, c.isDigit = true) (h3 : ∀ c ∈ fp, c.isDigit = true) :
    read (litStr neg ip fp) [] = .ok [litChars neg ip fp] := by
  obtain ⟨d, ip2, rfl⟩ : ∃ d ip2, ip = d :: ip2 := by
    cases ip with
    | nil => exact absurd rfl h1
    | cons a l => exact ⟨a, l, rfl⟩
  have hd : d.isDigit = true := h2 d (by simp)
  have hip2 : ∀ c ∈ ip2, c.isDigit = true := fun c hc => h2 c (by simp [hc])
  have hstr : (litStr neg (d :: ip2) fp).toList = litChars neg (d :: ip2) fp := rfl
  simp only [read]
  rw [hstr]
  by_cases hfp : fp = []
  · subst hfp
    cases neg with
    | false =>
      have hl : litChars false (d :: ip2) [] = d :: ip2 := by simp [litChars]
      rw [hl, readGo_start_digit hd,
        readGo_digits_end ip2 [d] [] d hip2 (by simp) hd]
      simp
    | true =>
      have hl : litChars true (d :: ip2) [] = '-' :: d :: ip2 := by simp [litChars]
      rw [hl, readGo_minus_start, readGo_unary_digit hd,
        readGo_digits_end ip2 ['-', d] [] d hip2 (by simp) hd]
      simp
  · obtain ⟨e, fp2, rfl⟩ : ∃ e fp2, fp = e :: fp2 := by
      cases fp with
      | nil => exact absurd rfl hfp
      | cons a l => exact ⟨a, l, rfl⟩
    cases neg with
    | false =>
      have hl : litChars false (d :: ip2) (e :: fp2)
          = d :: (ip2 ++ '.' :: e :: fp2) := by simp [litChars]
      rw [hl, readGo_start_digit hd,
        readGo_digits ip2 ('.' :: e :: fp2) [d] [] d hip2 (by simp) hd]
      have hdot : ([d] ++ ip2).contains '.' = false := by
        refine contains_dot_false (fun x hx => Or.inr ?_)
        rcases List.mem_append.mp hx with h | h
        · simp at h; subst h; exact hd
        · exact hip2 x h
      rw [readGo_dot hdot,
        readGo_digits_end (e :: fp2) (([d] ++ ip2) ++ ['.']) [] d h3 (by simp) hd]
      simp [litChars]
    | true =>
      have hl : litChars true (d :: ip2) (e :: fp2)
          = '-' :: d :: (ip2 ++ '.' :: e :: fp2) := by simp [litChars]
      rw [hl, readGo_minus_start, readGo_unary_digit hd,
        readGo_digits ip2 ('.' :: e :: fp2) ['-', d] [] d hip2 (by simp) hd]
      have hdot : (['-', d] ++ ip2).contains '.' = false := by
        refine contains_dot_false (fun x hx => ?_)
        rcases List.mem_append.mp hx with h | h
        · simp at h
          rcases h with h | h
          · exact Or.inl h
          · subst h; exact Or.inr hd
        · exact Or.inr (hip2 x h)
      rw [readGo_dot hdot,
        readGo_digits_end (e :: fp2) ((['-', d] ++ ip2) ++ ['.']) [] d h3 (by simp) hd]
      simp [litChars]

lemma takeWhile_digits_append (l1 l2 : List Char) (h : ∀ x ∈ l1, x.isDigit = true) :
    (l1 ++ l2).takeWhile Char.isDigit = l1 ++ l2.takeWhile Char.isDigit
    ∧ (l1 ++ l2).dropWhile Char.isDigit = l2.dropWhile Char.isDigit := by
  induction l1 with
  | nil => simp
  | cons a l1 ih =>
    have ha : a.isDigit = true := h a (by simp)
    have hrec := ih (fun x hx => h x (by simp [hx]))
    simp [List.takeWhile_cons, List.dropWhile_cons, ha, hrec.1, hrec.2]

lemma takeWhile_digits_all (l : List Char) (h : ∀ x ∈ l, x.isDigit = true) :
    l.takeWhile Char.isDigit = l ∧ l.dropWhile Char.isDigit = [] := by
  have := takeWhile_digits_append l [] h
  simpa using this

lemma digitsVal_nil : digitsVal [] = 0 := rfl

lemma jsNumberVal_lit (neg : Bool) (ip fp : List Char) (h1 : ip ≠ [])
    (h2 : ∀ c ∈ ip, c.isDigit = true) (h3 : ∀ c ∈ fp, c.isDigit = true) :
    jsNumberVal (litChars neg ip fp) = some (litVal neg ip fp) := by
  obtain ⟨d, ip2, rfl⟩ : ∃ d ip2, ip = d :: ip2 := by
    cases ip with
    | nil => exact absurd rfl h1
    | cons a l => exact ⟨a, l, rfl⟩
  have hd : d.isDigit = true := h2 d (by simp)
  have hd1 : ¬(d = '-') := by intro e; subst e; exact absurd hd (by decide)
  have hd2 : ¬(d = '+') := by intro e; subst e; exact absurd hd (by decide)
  have hip2 : ∀ c ∈ ip2, c.isDigit = true := fun c hc => h2 c (by simp [hc])
  obtain ⟨hia, hib⟩ := takeWhile_digits_all ip2 hip2
  have hdotd : Char.isDigit '.' = false := by decide
  by_cases hfp : fp = []
  · subst hfp
    cases neg with
    | false =>
      have hl : litChars false (d :: ip2) [] = d :: ip2 := by simp [litChars]
      rw [hl]
      simp [jsNumberVal, litVal, digitsVal_nil, hd, hd1, hd2,
        List.takeWhile_cons, List.dropWhile_cons, hia, hib]
    | true =>
      have hl : litChars true (d :: ip2) [] = '-' :: d :: ip2 := by simp [litChars]
      rw [hl]
      simp [jsNumberVal, litVal, digitsVal_nil, hd,
        List.takeWhile_cons, List.dropWhile_cons, hia, hib]
  · obtain ⟨e, fp2, rfl⟩ : ∃ e fp2, fp = e :: fp2 := by
      cases fp with
      | nil => exact absurd rfl hfp
      | cons a l => exact ⟨a, l, rfl⟩
    have he : e.isDigit = true := h3 e (by simp)
    have hfp2 : ∀ c ∈ fp2, c.isDigit = true := fun c hc => h3 c (by simp [hc])
    obtain ⟨hta, htb⟩ := takeWhile_digits_append ip2 ('.' :: e :: fp2) hip2
    obtain ⟨hfa, hfb⟩ := takeWhile_digits_all fp2 hfp2
    cases neg with
    | false =>
      have hl : litChars false (d :: ip2) (e :: fp2)
          = d :: (ip2 ++ '.' :: e :: fp2) := by simp [litChars]
      rw [hl]
      simp [jsNumberVal, litVal, hd, hd1, hd2, hdotd, he,
        List.takeWhile_cons, List.dropWhile_cons, hta, htb, hfa, hfb]
    | true =>
      have hl : litChars true (d :: ip2) (e :: fp2)
          = '-' :: d :: (ip2 ++ '.' :: e :: fp2) := by simp [litChars]
      rw [hl]
      simp [jsNumberVal, litVal, hd, hdotd, he,
        List.takeWhile_cons, List.dropWhile_cons, hta, htb, hfa, hfb]

/-- C8: for every numeric literal, integer or decimal, optionally negative,
the whole pipeline maps its string rendering to exactly its numeric value:
the tokenizer accumulates the literal into one token, the converter passes
the single number token through, and the evaluator returns its value. -/
theorem c8_literal_identity (neg : Bool) (ip fp : List Char) (h1 : ip ≠ [])
    (h2 : ∀ c ∈ ip, c.isDigit = true) (h3 : ∀ c ∈ fp, c.isDigit = true) :
    evaluateExpression (litStr neg ip fp) = .ok (.num (litVal neg ip fp)) := by
  have hread : read (litStr neg ip fp) [] = .ok [litChars neg ip fp] :=
    read_lit neg ip fp h1 h2 h3
  have hnum : jsNumberVal (litChars neg ip fp) = some (litVal neg ip fp) :=
    jsNumberVal_lit neg ip fp h1 h2 h3
  have hsy : shuntingYard [litChars neg ip fp] = [litChars neg ip fp] := by
    simp [shuntingYard, syGo, isNumber, hnum]
  simp only [evaluateExpression, calcStep, hread, hsy]
  simp [evaluateRPN, evalGo, hnum]

theorem c8_literal_identity_witness :
    evaluateExpression (litStr true ['3'] ['5']) = .ok (.num (litVal true ['3'] ['5'])) :=
  c8_literal_identity true ['3'] ['5'] (by decide) (by decide) (by decide)

/-- C10: a postfix token that is neither numeric nor one of the five
operators makes the evaluator pop two values and push nothing, silently
consuming two operands without any error; the converter really emits such
tokens: its final drain copies an unmatched open parenthesis verbatim into
the output queue. -/
theorem c10_unknown_token (t : Tok) (ts : List Tok) (stack : List JSVal)
    (hn : jsNumberVal t = none) (hop : isOpTok t = false) :
    evalGo (t :: ts) stack = evalGo ts (stack.drop 2)
    ∧ shuntingYard [['('], ['2'], ['+'], ['3']] = [['2'], ['3'], ['+'], ['(']] := by
  refine ⟨?_, rfl⟩
  have h5 : ¬(t = ['+'] ∨ t = ['-'] ∨ t = ['*'] ∨ t = ['/'] ∨ t = ['^']) := by
    intro h
    rcases h with h1 | h1 | h1 | h1 | h1 <;> subst h1 <;> simp [isOpTok] at hop
  push_neg at h5
  obtain ⟨n1, n2, n3, n4, n5⟩ := h5
  simp [evalGo, hn, n1, n2, n3, n4, n5]

theorem c10_witness :
    evalGo [['(']] [.num 1, .num 2] = evalGo [] ([JSVal.num 1, JSVal.num 2].drop 2)
    ∧ shuntingYard [['('], ['2'], ['+'], ['3']] = [['2'], ['3'], ['+'], ['(']] :=
  c10_unknown_token ['('] [] [.num 1, .num 2] (by decide) (by decide)

end Calculator
